import Mathlib

/-
  Verification development for the federated-learning coordinator
  (Rust sources: src/model.rs, src/server.rs, src/node.rs, src/messages.rs).

  Shallow embedding conventions:
  * `f32` scalars are modelled as exact rationals `ℚ`.  Every concrete value
    appearing in the properties below (small integers, halves) is exactly
    representable in `f32`, and the additions/divisions on them are exact,
    so the rational model agrees with the `f32` computation at those points.
  * `ndarray::Array2<f32>` weight matrices are kept as their row-major flat
    data `List ℚ` (this is exactly the storage `Array2` uses and the order in
    which `.iter()` yields elements and `idx = i * cols + j` addresses them).
  * Rust `Result<T, String>` is `Except String T`; a Rust panic (`expect`)
    is modelled as `Option`/a dedicated outcome constructor, since it aborts
    the handler rather than returning an error value.
  * Actor mailboxes serialize all handler runs, so each handler is embedded
    as a pure function from the owning actor's state (and the message) to
    the new state plus its observable outputs (broadcast targets, sent
    parameter vector, returned result).
-/

namespace FedLearn

/-! ## Parameter codec (src/model.rs) -/

/-- Mirror of `SimpleModel` (model.rs).  `w1`/`w2` hold the row-major flat
data of the two `Array2<f32>` weight matrices; `b1`/`b2` the two bias
vectors. -/
structure SimpleModel where
  w1 : List ℚ
  b1 : List ℚ
  w2 : List ℚ
  b2 : List ℚ
  learning_rate : ℚ
deriving DecidableEq

/-- One destination segment of `from_params_vec` (model.rs lines 122-161):
the loop `for i in 0..size { if offset + i < params.len() { dest[i] =
params[offset + i] } }`, written as a structural recursion over the
destination.  For the weight matrices the Rust double loop over `(i, j)`
addresses flat index `idx = i * cols + j`, which enumerates the row-major
positions `0, 1, ..., size-1` in ascending order, and its extra guard
`idx < size` is always true; so the same recursion embeds it. -/
def segWrite : List ℚ → List ℚ → Nat → List ℚ
  | [], _, _ => []
  | a :: rest, params, offset =>
      (if offset < params.length then params.getD offset 0 else a)
        :: segWrite rest params (offset + 1)

/-- Mirror of `SimpleModel::to_params_vec` (model.rs lines 100-116):
concatenate w1 (row-major), b1, w2 (row-major), b2. -/
def to_params_vec (m : SimpleModel) : List ℚ :=
  m.w1 ++ m.b1 ++ m.w2 ++ m.b2

/-- Total number of parameters of the model (the contract length). -/
def totalParams (m : SimpleModel) : Nat :=
  m.w1.length + m.b1.length + m.w2.length + m.b2.length

/-- The state change performed by `SimpleModel::from_params_vec`
(model.rs lines 119-164): tolerant writes into the four segments at
offsets 0, |w1|, |w1|+|b1|, |w1|+|b1|+|w2|; `learning_rate` untouched. -/
def unflatten (m : SimpleModel) (params : List ℚ) : SimpleModel :=
  { m with
    w1 := segWrite m.w1 params 0
    b1 := segWrite m.b1 params m.w1.length
    w2 := segWrite m.w2 params (m.w1.length + m.b1.length)
    b2 := segWrite m.b2 params (m.w1.length + m.b1.length + m.w2.length) }

/-- Mirror of `SimpleModel::from_params_vec` as the full Rust function:
performs the tolerant writes and unconditionally returns `Ok(())`
(model.rs line 163). -/
def from_params_vec (m : SimpleModel) (params : List ℚ) :
    Except String SimpleModel :=
  .ok (unflatten m params)

/-- Mirror of `update_model` (model.rs lines 184-189) minus the `Mutex`
acquisition, which the serialized embedding renders trivial. -/
def update_model (m : SimpleModel) (params : List ℚ) :
    Except String SimpleModel :=
  from_params_vec m params

/-! ## Central server (src/server.rs) -/

/-- Mirror of `ServerMessage` (messages.rs lines 28-31). -/
structure ServerMessage where
  node_addr : String
  params : List ℚ
deriving DecidableEq

/-- Mirror of `NodeMessage` (messages.rs lines 8-13). -/
inductive NodeMessage where
  | Train (data labels : List ℚ)
  | Predict (data : List ℚ)
  | UpdateModel (params : List ℚ)
  | RegisterNode (addr : String)
deriving DecidableEq

/-- Mirror of `NodeStatus` (network.rs). -/
structure NodeStatus where
  address : String
  status : String
deriving DecidableEq

/-- Mirror of the `CentralServer` actor state (server.rs lines 8-14). -/
structure CentralServer where
  nodes : List String
  aggregated_params : Option (List ℚ)
  model : SimpleModel
  updates_received : Nat
  total_nodes : Nat
deriving DecidableEq

/-- Mirror of `CentralServer::new` (server.rs lines 126-136).  `build_model()`
draws a randomly initialised `SimpleModel`; the embedding passes that draw
explicitly. -/
def CentralServer.new (total_nodes : Nat) (model : SimpleModel) :
    CentralServer :=
  { nodes := []
    aggregated_params := none
    model := model
    updates_received := 0
    total_nodes := total_nodes }

/-- Elementwise in-place addition loop of the update handler (server.rs
lines 43-45): `aggregated.iter_mut().zip(msg.params.iter())` stops at
the shorter of the two lists, the remaining tail of `aggregated` stays. -/
def zipAdd : List ℚ → List ℚ → List ℚ
  | [], _ => []
  | as, [] => as
  | a :: as, b :: bs => (a + b) :: zipAdd as bs

/-- The accumulator update of the handler (server.rs lines 42-48): add into
the present accumulator, or seed it with the incoming vector. -/
def accumulate (acc : Option (List ℚ)) (params : List ℚ) :
    Option (List ℚ) :=
  match acc with
  | some aggregated => some (zipAdd aggregated params)
  | none => some params

/-- Observable outcome of `CentralServer::aggregate_and_broadcast`:
the new actor state, the node addresses a broadcast task is spawned for
(each is posted to at `addr ++ "/message"`), the parameter vector of the
`UpdateModel` message broadcast (if any), and the returned `Result`. -/
structure AggResult where
  state : CentralServer
  targets : List String
  sent : Option (List ℚ)
  result : Except String Unit

/-- Mirror of `CentralServer::aggregate_and_broadcast` (server.rs lines
138-178): divide each accumulator element in place by `total_nodes`
(`as f32` cast modelled by the `Nat → ℚ` coercion), load the average into
the central model, and spawn one broadcast task per registered node that
is not `"ping"`, not empty, and not `"direct"`.  With an absent
accumulator it returns the aggregation error and touches nothing. -/
def aggregate_and_broadcast (s : CentralServer) : AggResult :=
  match s.aggregated_params with
  | some aggregated =>
      let avg := aggregated.map (fun param => param / (s.total_nodes : ℚ))
      match update_model s.model avg with
      | .ok m2 =>
          { state := { s with aggregated_params := some avg, model := m2 }
            targets := s.nodes.filter
              (fun node => node != "ping" && node != "" && node != "direct")
            sent := some avg
            result := .ok () }
      | .error e =>
          { state := { s with aggregated_params := some avg }
            targets := []
            sent := none
            result := .error ("Failed to update central model: " ++ e) }
  | none =>
      { state := s
        targets := []
        sent := none
        result := .error "No parameters to aggregate" }

/-- Observable outcome of one run of a `CentralServer` message handler.
`closed` instruments the control flow: it is true exactly when the handler
invoked `aggregate_and_broadcast` (round closure). -/
structure HandleResult where
  state : CentralServer
  targets : List String
  sent : Option (List ℚ)
  closed : Bool
  result : Except String Unit

/-- Mirror of `Handler<ServerMessage> for CentralServer` (server.rs lines
27-68): register the sender address if new, increment `updates_received`,
fold the params into the accumulator, and when `updates_received >=
total_nodes` invoke round closure; on its success reset the counter and
the accumulator, on failure only log (the handler returns `Ok(())`
either way). -/
def handleServerMessage (s : CentralServer) (msg : ServerMessage) :
    HandleResult :=
  let s1 := if s.nodes.contains msg.node_addr then s
            else { s with nodes := s.nodes ++ [msg.node_addr] }
  let s2 := { s1 with updates_received := s1.updates_received + 1 }
  let s3 := { s2 with
              aggregated_params := accumulate s2.aggregated_params msg.params }
  if s3.updates_received ≥ s3.total_nodes then
    let agg := aggregate_and_broadcast s3
    match agg.result with
    | .ok _ =>
        { state := { agg.state with
                     updates_received := 0, aggregated_params := none }
          targets := agg.targets
          sent := agg.sent
          closed := true
          result := .ok () }
    | .error _ =>
        { state := agg.state
          targets := agg.targets
          sent := agg.sent
          closed := true
          result := .ok () }
  else
    { state := s3
      targets := []
      sent := none
      closed := false
      result := .ok () }

/-- Mirror of `Handler<NodeMessage> for CentralServer` (server.rs lines
71-94): `RegisterNode` inserts idempotently; `UpdateModel` wraps the params
in a `ServerMessage` with sender address `"direct"` and runs the
`ServerMessage` handler; other messages are ignored. -/
def handleNodeMessage (s : CentralServer) (msg : NodeMessage) :
    HandleResult :=
  match msg with
  | .RegisterNode addr =>
      let s2 := if s.nodes.contains addr then s
                else { s with nodes := s.nodes ++ [addr] }
      { state := s2, targets := [], sent := none, closed := false
        result := .ok () }
  | .UpdateModel params =>
      handleServerMessage s { node_addr := "direct", params := params }
  | _ =>
      { state := s, targets := [], sent := none, closed := false
        result := .ok () }

/-- Mirror of `Handler<GetNodesRequest> for CentralServer` (server.rs lines
96-112): snapshot of the registry filtered by `addr != "ping"` only, each
entry with static status `"active"`. -/
def handleGetNodes (s : CentralServer) : List NodeStatus :=
  (s.nodes.filter (fun addr => addr != "ping")).map
    (fun addr => { address := addr, status := "active" })

/-- Trace of closure flags: process the messages one at a time through the
`ServerMessage` handler and record, per message, whether that handling
invoked round closure. -/
def serverFlags (s : CentralServer) : List ServerMessage → List Bool
  | [] => []
  | msg :: rest =>
      let r := handleServerMessage s msg
      r.closed :: serverFlags r.state rest

/-! ## Node actor training path (src/node.rs, src/model.rs) -/

/-- A reshaped `Array2<f32>`: rows, columns, row-major data. -/
abbrev Batch := Nat × Nat × List ℚ

/-- Mirror of `ndarray::Array2::from_shape_vec((rows, cols), v)`: succeeds
exactly when the flat data has length `rows * cols`. -/
def from_shape_vec (rows cols : Nat) (v : List ℚ) : Option Batch :=
  if v.length = rows * cols then some (rows, cols, v) else none

/-- Mirror of `prepare_data` (model.rs lines 213-226): reshape `data` to
`[labels.len(), 10]` and `labels` to `[labels.len(), 1]`.  The Rust code
calls `.expect(...)` on both reshapes, i.e. it panics on failure; the
panic is modelled as `none`. -/
def prepare_data (data labels : List ℚ) : Option (Batch × Batch) :=
  let batch_size := labels.length
  let features := 10
  match from_shape_vec batch_size features data with
  | none => none
  | some x =>
      match from_shape_vec batch_size 1 labels with
      | none => none
      | some y => some (x, y)

/-- Mirror of the `NodeActor` state (node.rs lines 8-12), the model kept
abstract as a `SimpleModel` value. -/
structure NodeActor where
  model : SimpleModel
  server_addr : String
  node_addr : String
deriving DecidableEq

/-- Outcome of the `Train` arm: either the handler aborted by panic inside
`prepare_data` (a Rust `expect` failure, not a returned error value), or
training finished and the flattened parameters were dispatched to the
server. -/
inductive TrainOutcome where
  | panicked (msg : String)
  | sent (params : List ℚ)
deriving DecidableEq

/-- Mirror of the `Train` arm of `Handler<NodeMessage> for NodeActor`
(node.rs lines 37-70): `prepare_data` runs first; only if it succeeds is
the model locked, trained for 10 epochs, flattened, and the result sent.
The learning step `SimpleModel::train` is the out-of-scope learning
collaborator (spec section 1), so the handler is parametric in it; the
`Mutex` acquisition always succeeds in the serialized embedding.  A
`prepare_data` failure panics before the model is ever touched. -/
def nodeHandleTrain (trainFn : SimpleModel → Batch → Batch → Nat → SimpleModel)
    (a : NodeActor) (data labels : List ℚ) : NodeActor × TrainOutcome :=
  match prepare_data data labels with
  | none => (a, .panicked "Failed to reshape data")
  | some (x, y) =>
      let m2 := trainFn a.model x y 10
      ({ a with model := m2 }, .sent (to_params_vec m2))

/-! ## Concrete fixtures used for evaluations -/

/-- A model whose four parameter segments are empty (the codec and the
round machine are independent of the segment contents). -/
def model0 : SimpleModel := ⟨[], [], [], [], 0⟩

/-- A small model with segment sizes 2, 1, 1, 1 (five parameters). -/
def model1 : SimpleModel := ⟨[1, 2], [3], [4], [5], 1 / 100⟩

/-- A server whose registry holds the sentinels `"direct"` and `""`. -/
def cexServer : CentralServer := ⟨["direct", ""], none, model0, 0, 1⟩

/-- A server whose registry holds one routable address and all three
sentinel addresses, with an accumulator present. -/
def bServer : CentralServer := ⟨["n1", "ping", "direct", ""], some [1], model0, 0, 1⟩

/-- A fresh two-node server. -/
def wServer : CentralServer := CentralServer.new 2 model0

/-- A two-node server at the instant of closure: both updates `[2,4]` and
`[4,6]` already folded into the accumulator. -/
def aggServer : CentralServer := ⟨["a", "b"], some [6, 10], model0, 2, 2⟩

/-- A node actor fixture. -/
def nodeA : NodeActor := ⟨model1, "srv", "n1"⟩

/-! ## Codec lemmas -/

theorem segWrite_length (d p : List ℚ) (o : Nat) :
    (segWrite d p o).length = d.length := by
  induction d generalizing o with
  | nil => rfl
  | cons a rest ih => simp [segWrite, ih]

theorem segWrite_getD (d p : List ℚ) (o k : Nat) (hk : k < d.length) :
    (segWrite d p o).getD k 0 =
      if o + k < p.length then p.getD (o + k) 0 else d.getD k 0 := by
  induction d generalizing o k with
  | nil => simp at hk
  | cons a rest ih =>
      cases k with
      | zero => simp [segWrite]
      | succ k =>
          have hk2 : k < rest.length := by simpa using hk
          have harith : o + 1 + k = o + (k + 1) := by omega
          simp only [segWrite, List.getD_cons_succ]
          rw [ih (o + 1) k hk2, harith]

theorem getD_append_left (xs ys : List ℚ) (k : Nat) (hk : k < xs.length) :
    (xs ++ ys).getD k 0 = xs.getD k 0 := by
  induction xs generalizing k with
  | nil => simp at hk
  | cons a rest ih =>
      cases k with
      | zero => rfl
      | succ k => simpa [List.getD_cons_succ] using ih k (by simpa using hk)

theorem getD_append_add (xs ys : List ℚ) (k : Nat) :
    (xs ++ ys).getD (xs.length + k) 0 = ys.getD k 0 := by
  induction xs with
  | nil => simp
  | cons a rest ih => simpa [List.getD_cons_succ, Nat.succ_add] using ih

theorem ext_getD (xs ys : List ℚ) (hl : xs.length = ys.length)
    (h : ∀ k, k < xs.length → xs.getD k 0 = ys.getD k 0) : xs = ys := by
  apply List.ext_getElem hl
  intro i h1 h2
  have hi := h i h1
  rwa [List.getD_eq_getElem xs 0 h1, List.getD_eq_getElem ys 0 h2] at hi

theorem segWrite_append (xs ys p : List ℚ) (o : Nat) :
    segWrite (xs ++ ys) p o = segWrite xs p o ++ segWrite ys p (o + xs.length) := by
  induction xs generalizing o with
  | nil => simp [segWrite]
  | cons a rest ih =>
      have harith : o + 1 + rest.length = o + (rest.length + 1) := by omega
      simp [segWrite, ih (o + 1), harith]

theorem segWrite_eq_self (d pre post : List ℚ) :
    segWrite d (pre ++ d ++ post) pre.length = d := by
  apply ext_getD _ _ (segWrite_length d _ _)
  intro k hk
  rw [segWrite_length] at hk
  rw [segWrite_getD d _ _ k hk]
  have hcond : pre.length + k < (pre ++ d ++ post).length := by
    simp [List.length_append]; omega
  rw [if_pos hcond, List.append_assoc, getD_append_add]
  exact getD_append_left d post k hk

theorem to_params_vec_length (m : SimpleModel) :
    (to_params_vec m).length = totalParams m := by
  simp [to_params_vec, totalParams]; omega

/-- Flattening after a tolerant write is a single tolerant write on the
flattened vector: the four segment offsets are exactly the flat positions
of the segments in codec order. -/
theorem to_params_vec_unflatten (m : SimpleModel) (v : List ℚ) :
    to_params_vec (unflatten m v) = segWrite (to_params_vec m) v 0 := by
  simp [to_params_vec, unflatten, segWrite_append, List.length_append,
    Nat.add_assoc]

/-- Pointwise tolerant-write law over the flattened model. -/
theorem unflatten_getD (m : SimpleModel) (v : List ℚ) (k : Nat)
    (hk : k < totalParams m) :
    (to_params_vec (unflatten m v)).getD k 0 =
      if k < v.length then v.getD k 0 else (to_params_vec m).getD k 0 := by
  rw [to_params_vec_unflatten]
  have hk2 : k < (to_params_vec m).length := by rw [to_params_vec_length]; exact hk
  simpa using segWrite_getD (to_params_vec m) v 0 k hk2

/-! ## Accumulation lemmas -/

theorem zipAdd_length (as bs : List ℚ) : (zipAdd as bs).length = as.length := by
  induction as generalizing bs with
  | nil => cases bs <;> rfl
  | cons a rest ih =>
      cases bs with
      | nil => rfl
      | cons b bs => simp [zipAdd, ih]

theorem zipAdd_getD_lt (as bs : List ℚ) (k : Nat)
    (h1 : k < as.length) (h2 : k < bs.length) :
    (zipAdd as bs).getD k 0 = as.getD k 0 + bs.getD k 0 := by
  induction as generalizing bs k with
  | nil => simp at h1
  | cons a rest ih =>
      cases bs with
      | nil => simp at h2
      | cons b bs =>
          cases k with
          | zero => simp [zipAdd]
          | succ k =>
              simpa [zipAdd, List.getD_cons_succ] using
                ih bs k (by simpa using h1) (by simpa using h2)

theorem zipAdd_getD_ge (as bs : List ℚ) (k : Nat) (h : bs.length ≤ k) :
    (zipAdd as bs).getD k 0 = as.getD k 0 := by
  induction as generalizing bs k with
  | nil => cases bs <;> simp [zipAdd]
  | cons a rest ih =>
      cases bs with
      | nil => rfl
      | cons b bs =>
          cases k with
          | zero => simp at h
          | succ k =>
              simpa [zipAdd, List.getD_cons_succ] using
                ih bs k (by simpa using h)

theorem accumulate_isSome (acc : Option (List ℚ)) (p : List ℚ) :
    ∃ w, accumulate acc p = some w := by
  cases acc with
  | some a => exact ⟨zipAdd a p, rfl⟩
  | none => exact ⟨p, rfl⟩

/-! ## Round-closure lemmas -/

/-- Behaviour of `aggregate_and_broadcast` with a present accumulator:
scale in place, load into the model, target every non-sentinel node. -/
theorem aggregate_some (s : CentralServer) (v : List ℚ)
    (h : s.aggregated_params = some v) :
    aggregate_and_broadcast s =
      { state := { s with
          aggregated_params := some (v.map (fun param => param / (s.total_nodes : ℚ)))
          model := unflatten s.model (v.map (fun param => param / (s.total_nodes : ℚ))) }
        targets := s.nodes.filter
          (fun node => node != "ping" && node != "" && node != "direct")
        sent := some (v.map (fun param => param / (s.total_nodes : ℚ)))
        result := .ok () } := by
  simp [aggregate_and_broadcast, h, update_model, from_params_vec]

/-- Complete characterization of one `ServerMessage` handler run, given the
value the accumulator takes after folding in the incoming params. -/
theorem handle_char (s : CentralServer) (msg : ServerMessage) (w : List ℚ)
    (hw : accumulate s.aggregated_params msg.params = some w) :
    handleServerMessage s msg =
      (let nodes2 := if s.nodes.contains msg.node_addr then s.nodes
                     else s.nodes ++ [msg.node_addr]
       if s.total_nodes ≤ s.updates_received + 1 then
         let avg := w.map (fun param => param / (s.total_nodes : ℚ))
         { state := { nodes := nodes2, aggregated_params := none,
                      model := unflatten s.model avg,
                      updates_received := 0, total_nodes := s.total_nodes }
           targets := nodes2.filter
             (fun node => node != "ping" && node != "" && node != "direct")
           sent := some avg
           closed := true
           result := .ok () }
       else
         { state := { nodes := nodes2, aggregated_params := some w,
                      model := s.model,
                      updates_received := s.updates_received + 1,
                      total_nodes := s.total_nodes }
           targets := []
           sent := none
           closed := false
           result := .ok () }) := by
  by_cases hc : s.nodes.contains msg.node_addr
  all_goals
    simp only [handleServerMessage, hc, if_true, if_false, ite_true, ite_false,
      Bool.false_eq_true]
  all_goals
    by_cases hn : s.total_nodes ≤ s.updates_received + 1
  all_goals
    simp only [hw, hn, ge_iff_le, if_true, if_false, ite_true, ite_false]
  all_goals rfl

theorem serverFlags_length (s : CentralServer) (msgs : List ServerMessage) :
    (serverFlags s msgs).length = msgs.length := by
  induction msgs generalizing s with
  | nil => rfl
  | cons msg rest ih => simp [serverFlags, ih]

/-- Closure flag of the i-th handled update, for any state whose received
count is below the expected count (the invariant every reachable state
between closures satisfies): the flag is set exactly when the running
count of accepted updates reaches a multiple of the expected count. -/
theorem serverFlags_getD (s : CentralServer) (msgs : List ServerMessage) (i : Nat)
    (hc : s.updates_received < s.total_nodes) (hi : i < msgs.length) :
    (serverFlags s msgs).getD i false =
      decide ((s.updates_received + i + 1) % s.total_nodes = 0) := by
  induction msgs generalizing s i with
  | nil => simp at hi
  | cons msg rest ih =>
      obtain ⟨w, hw⟩ := accumulate_isSome s.aggregated_params msg.params
      have hch := handle_char s msg w hw
      cases i with
      | zero =>
          simp only [serverFlags, List.getD_cons_zero]
          rw [hch]
          by_cases hn : s.total_nodes ≤ s.updates_received + 1
          · have hz : (s.updates_received + 0 + 1) % s.total_nodes = 0 := by
              rw [show s.updates_received + 0 + 1 = s.total_nodes by omega]
              exact Nat.mod_self _
            simp [hn, hz]
          · have hne : (s.updates_received + 0 + 1) % s.total_nodes ≠ 0 := by
              rw [Nat.mod_eq_of_lt (by omega)]; omega
            simp [hn, hne]
      | succ i =>
          simp only [serverFlags, List.getD_cons_succ]
          rw [hch]
          by_cases hn : s.total_nodes ≤ s.updates_received + 1
          · simp only [hn, ite_true]
            rw [ih _ i (by simp; omega) (by simpa using hi)]
            show decide ((0 + i + 1) % s.total_nodes = 0) = _
            simp only [decide_eq_decide]
            rw [show s.updates_received + (i + 1) + 1 = s.total_nodes + (i + 1) by omega,
              Nat.add_mod_left, Nat.zero_add]
          · simp only [hn, ite_false]
            rw [ih _ i (by simp; omega) (by simpa using hi)]
            show decide ((s.updates_received + 1 + i + 1) % s.total_nodes = 0) = _
            simp only [decide_eq_decide]
            rw [show s.updates_received + 1 + i + 1 = s.updates_received + (i + 1) + 1 by omega]

/-- The sender address of a handled update is always in the registry
afterwards (it is inserted when absent and the rest of the handler never
removes registry entries). -/
theorem handle_mem_nodes (s : CentralServer) (msg : ServerMessage) :
    msg.node_addr ∈ (handleServerMessage s msg).state.nodes := by
  obtain ⟨w, hw⟩ := accumulate_isSome s.aggregated_params msg.params
  rw [handle_char s msg w hw]
  by_cases hn : s.total_nodes ≤ s.updates_received + 1
  all_goals
    simp only [if_pos, if_neg, hn, ite_true, ite_false]
  all_goals
    show msg.node_addr ∈
      (if s.nodes.contains msg.node_addr = true then s.nodes
       else s.nodes ++ [msg.node_addr])
  all_goals
    split
  all_goals
    first
    | simp
    | (next hcont => simpa using hcont)

/-! ## Claim theorems -/

/-- C1, counterexample: the claim as stated is false.  `HandleGetNodes`
filters only `"ping"` (server.rs line 105), so with `"direct"` in the
registry the listing reports it. -/
theorem getNodes_sentinel_counterexample :
    ¬ (∀ s : CentralServer, ∀ ns ∈ handleGetNodes s,
        ns.address ≠ "ping" ∧ ns.address ≠ "direct" ∧ ns.address ≠ "") := by
  intro hAll
  have hm : (⟨"direct", "active"⟩ : NodeStatus) ∈ handleGetNodes cexServer := by decide
  exact (hAll cexServer ⟨"direct", "active"⟩ hm).2.1 rfl

/-- C1, amended: the broadcast target list of round closure never contains
`"ping"`, `"direct"`, or the empty string, even when they are in the
registry; `HandleGetNodes()` excludes only `"ping"` from its output. -/
theorem sentinel_exclusion_amended (s : CentralServer) :
    (∀ a ∈ (aggregate_and_broadcast s).targets,
      a ≠ "ping" ∧ a ≠ "direct" ∧ a ≠ "") ∧
    (∀ ns ∈ handleGetNodes s, ns.address ≠ "ping") := by
  constructor
  · intro a ha
    cases hacc : s.aggregated_params with
    | none => simp [aggregate_and_broadcast, hacc] at ha
    | some v =>
        rw [aggregate_some s v hacc] at ha
        simp only [List.mem_filter] at ha
        have h2 := ha.2
        simp only [Bool.and_eq_true, bne_iff_ne] at h2
        exact ⟨h2.1.1, h2.2, h2.1.2⟩
  · intro ns hns
    simp only [handleGetNodes, List.mem_map] at hns
    obtain ⟨addr, haddr, rfl⟩ := hns
    simp only [List.mem_filter] at haddr
    simpa [bne_iff_ne] using haddr.2

/-- C1 amended, witness at a registry holding one routable address and all
three sentinels. -/
theorem sentinel_exclusion_amended_witness :
    (("n1" : String) ≠ "ping" ∧ ("n1" : String) ≠ "direct" ∧ ("n1" : String) ≠ "") ∧
    ("direct" : String) ≠ "ping" := by
  have h := sentinel_exclusion_amended bServer
  refine ⟨h.1 "n1" ?_, h.2 ⟨"direct", "active"⟩ ?_⟩
  · rw [aggregate_some bServer [1] rfl]
    decide
  · decide

/-- C2: with `data.len() ≠ 10 * labels.len()` the `Train` arm aborts inside
`prepare_data` before the model is ever locked or mutated — but it aborts
by panicking (`expect("Failed to reshape data")`, model.rs line 219), not
by returning a string error as the spec states.  The theorem evaluates the
code at any failing input: the node state is returned unchanged and the
outcome is the panic, for every learning collaborator. -/
theorem train_reshape_mismatch_panics
    (trainFn : SimpleModel → Batch → Batch → Nat → SimpleModel)
    (a : NodeActor) (data labels : List ℚ)
    (h : data.length ≠ 10 * labels.length) :
    nodeHandleTrain trainFn a data labels =
      (a, .panicked "Failed to reshape data") := by
  have h2 : ¬ (data.length = labels.length * 10) := by omega
  simp [nodeHandleTrain, prepare_data, from_shape_vec, h2]

/-- C2, witness at the failing input `data = [1,2,3,4,5]`, `labels = [1]`. -/
theorem train_reshape_mismatch_panics_witness :
    nodeHandleTrain (fun m _ _ _ => m) nodeA [1, 2, 3, 4, 5] [1] =
      (nodeA, .panicked "Failed to reshape data") :=
  train_reshape_mismatch_panics (fun m _ _ _ => m) nodeA [1, 2, 3, 4, 5] [1]
    (by norm_num)

/-- C3: with `expectedCount = N ≥ 1` fixed at construction, round closure is
invoked exactly on every N-th accepted update since process start, never
earlier and never later: the closure flag of the i-th accepted update is
set iff `i + 1` is a multiple of N. -/
theorem round_closure_exact (N : Nat) (hN : 1 ≤ N) (m0 : SimpleModel)
    (msgs : List ServerMessage) (i : Nat) (hi : i < msgs.length) :
    ((serverFlags (CentralServer.new N m0) msgs).getD i false = true ↔
      (i + 1) % N = 0) := by
  rw [serverFlags_getD (CentralServer.new N m0) msgs i
    (by simpa [CentralServer.new] using hN) hi]
  show decide ((0 + i + 1) % N = 0) = true ↔ _
  simp [decide_eq_true_eq]

/-- C3, witness: with N = 2 the first update does not close the round and
the second does. -/
theorem round_closure_exact_witness :
    (serverFlags (CentralServer.new 2 model0) [⟨"a", [1]⟩, ⟨"b", [2]⟩]).getD 1 false
        = true ∧
    ¬ ((serverFlags (CentralServer.new 2 model0) [⟨"a", [1]⟩, ⟨"b", [2]⟩]).getD 0 false
        = true) := by
  constructor
  · exact (round_closure_exact 2 (by norm_num) model0 [⟨"a", [1]⟩, ⟨"b", [2]⟩] 1
      (by norm_num)).mpr (by norm_num)
  · intro h
    have h0 := (round_closure_exact 2 (by norm_num) model0 [⟨"a", [1]⟩, ⟨"b", [2]⟩] 0
      (by norm_num)).mp h
    norm_num at h0

/-- C4: immediately after every round closure the received count is 0 and
the accumulator is absent, so the next accepted update seeds a fresh
accumulator as a copy of its vector rather than adding into stale state. -/
theorem post_closure_reset (s : CentralServer) (msg : ServerMessage)
    (h : (handleServerMessage s msg).closed = true) :
    (handleServerMessage s msg).state.updates_received = 0 ∧
    (handleServerMessage s msg).state.aggregated_params = none ∧
    (∀ p, accumulate (handleServerMessage s msg).state.aggregated_params p
      = some p) := by
  obtain ⟨w, hw⟩ := accumulate_isSome s.aggregated_params msg.params
  rw [handle_char s msg w hw] at h ⊢
  by_cases hn : s.total_nodes ≤ s.updates_received + 1
  · simp [hn, accumulate]
  · simp [hn] at h

/-- C4, witness at a one-node server whose single update closes the round. -/
theorem post_closure_reset_witness :
    (handleServerMessage (CentralServer.new 1 model0) ⟨"a", [1]⟩).state.updates_received
        = 0 ∧
    (handleServerMessage (CentralServer.new 1 model0) ⟨"a", [1]⟩).state.aggregated_params
        = none ∧
    accumulate
      (handleServerMessage (CentralServer.new 1 model0) ⟨"a", [1]⟩).state.aggregated_params
      [7] = some [7] := by
  have h := post_closure_reset (CentralServer.new 1 model0) ⟨"a", [1]⟩ (by decide)
  exact ⟨h.1, h.2.1, h.2.2 [7]⟩

/-- C5: with an accumulator present, the incoming vector is added
elementwise only over the shorter of the two lengths; excess elements of
the longer vector are untouched and no error is raised; in particular
accumulator `[1,1,1]` receiving `[5,5]` yields `[6,6,1]`. -/
theorem accumulation_truncated (acc upd : List ℚ) :
    accumulate (some acc) upd = some (zipAdd acc upd) ∧
    (zipAdd acc upd).length = acc.length ∧
    (∀ k, k < acc.length → k < upd.length →
      (zipAdd acc upd).getD k 0 = acc.getD k 0 + upd.getD k 0) ∧
    (∀ k, upd.length ≤ k → (zipAdd acc upd).getD k 0 = acc.getD k 0) ∧
    zipAdd [1, 1, 1] [5, 5] = [6, 6, 1] := by
  refine ⟨rfl, zipAdd_length acc upd, ?_, ?_, by norm_num [zipAdd]⟩
  · intro k h1 h2
    exact zipAdd_getD_lt acc upd k h1 h2
  · intro k hk
    exact zipAdd_getD_ge acc upd k hk

/-- C5, witness at the concrete instance of the claim. -/
theorem accumulation_truncated_witness :
    accumulate (some [1, 1, 1]) [5, 5] = some [6, 6, 1] ∧
    (zipAdd [1, 1, 1] [5, 5]).getD 0 0 = 6 ∧
    (zipAdd [1, 1, 1] [5, 5]).getD 2 0 = 1 := by
  have h := accumulation_truncated [1, 1, 1] [5, 5]
  refine ⟨?_, ?_, ?_⟩
  · rw [h.1, h.2.2.2.2]
  · rw [h.2.2.1 0 (by norm_num) (by norm_num)]
    norm_num
  · rw [h.2.2.2.1 2 (by norm_num)]
    norm_num

/-- C6: `unflatten` writes a destination position only when its flat offset
is within the supplied vector, leaves every position at or beyond the
vector's length unmodified, and reports success for any length mismatch;
so when the vector is shorter than the parameter count exactly its length
prefix of the flattened model in codec order is updated. -/
theorem unflatten_tolerant (m : SimpleModel) (v : List ℚ) :
    from_params_vec m v = .ok (unflatten m v) ∧
    totalParams (unflatten m v) = totalParams m ∧
    (∀ k, k < totalParams m →
      (to_params_vec (unflatten m v)).getD k 0 =
        if k < v.length then v.getD k 0 else (to_params_vec m).getD k 0) := by
  refine ⟨rfl, ?_, fun k hk => unflatten_getD m v k hk⟩
  simp [totalParams, unflatten, segWrite_length]

/-- C6, witness: a five-parameter model receiving a one-element vector has
exactly its first flattened position overwritten. -/
theorem unflatten_tolerant_witness :
    from_params_vec model1 [9] = .ok (unflatten model1 [9]) ∧
    (to_params_vec (unflatten model1 [9])).getD 0 0 = 9 ∧
    (to_params_vec (unflatten model1 [9])).getD 1 0 = 2 := by
  have h := unflatten_tolerant model1 [9]
  refine ⟨h.1, ?_, ?_⟩
  · rw [h.2.2 0 (by norm_num [totalParams, model1])]
    norm_num
  · rw [h.2.2 1 (by norm_num [totalParams, model1])]
    norm_num [to_params_vec, model1]

/-- C7: unflattening a model's own flattened vector (whose length matches
the parameter count by construction) leaves the model unchanged; the four
segments are written back in the same order `flatten` concatenated them. -/
theorem flatten_roundtrip (m : SimpleModel) :
    from_params_vec m (to_params_vec m) = .ok m := by
  cases m with
  | mk w1 b1 w2 b2 lr =>
      simp only [from_params_vec, Except.ok.injEq]
      show unflatten ⟨w1, b1, w2, b2, lr⟩ (to_params_vec ⟨w1, b1, w2, b2, lr⟩) = _
      simp only [unflatten, to_params_vec]
      congr 1
      · have h := segWrite_eq_self w1 [] (b1 ++ (w2 ++ b2))
        simpa [List.append_assoc] using h
      · have h := segWrite_eq_self b1 w1 (w2 ++ b2)
        simpa [List.append_assoc] using h
      · have h := segWrite_eq_self w2 (w1 ++ b1) b2
        simpa [List.append_assoc, List.length_append, Nat.add_assoc] using h
      · have h := segWrite_eq_self b2 ((w1 ++ b1) ++ w2) []
        simpa [List.append_assoc, List.length_append, Nat.add_assoc] using h

/-- C8: at round closure every accumulator element is divided by the
configured expected count (a mean over contributing calls); in particular
with expected count 2, updates `[2,4]` then `[4,6]` yield the post-closure
vector `[3,5]`, loaded into the global model and broadcast. -/
theorem closure_average (s : CentralServer) (acc : List ℚ)
    (h : s.aggregated_params = some acc) :
    (aggregate_and_broadcast s).sent =
      some (acc.map (fun param => param / (s.total_nodes : ℚ))) ∧
    (aggregate_and_broadcast s).state.model =
      unflatten s.model (acc.map (fun param => param / (s.total_nodes : ℚ))) ∧
    (aggregate_and_broadcast s).result = .ok () ∧
    ((handleServerMessage
        (handleServerMessage (CentralServer.new 2 model0) ⟨"nodeA", [2, 4]⟩).state
        ⟨"nodeB", [4, 6]⟩).sent = some [3, 5] ∧
     (handleServerMessage
        (handleServerMessage (CentralServer.new 2 model0) ⟨"nodeA", [2, 4]⟩).state
        ⟨"nodeB", [4, 6]⟩).state.model = unflatten model0 [3, 5]) := by
  rw [aggregate_some s acc h]
  refine ⟨rfl, rfl, rfl, ?_, ?_⟩
  all_goals simp [handleServerMessage, CentralServer.new, accumulate, zipAdd,
    aggregate_and_broadcast, update_model, from_params_vec, model0,
    unflatten, segWrite]
  all_goals norm_num

/-- C8, witness at the closure state reached after updates `[2,4]` and
`[4,6]` with expected count 2. -/
theorem closure_average_witness :
    (aggregate_and_broadcast aggServer).sent = some [3, 5] ∧
    (aggregate_and_broadcast aggServer).result = .ok () := by
  have h := closure_average aggServer [6, 10] rfl
  refine ⟨?_, h.2.2.1⟩
  rw [h.1]
  norm_num [aggServer]

/-- C9: invoking round closure with an absent accumulator reports the
aggregation error and leaves the entire server state — registry, received
count, accumulator, global model — unchanged, with no broadcast dispatched. -/
theorem closure_absent_error (s : CentralServer)
    (h : s.aggregated_params = none) :
    (aggregate_and_broadcast s).result = .error "No parameters to aggregate" ∧
    (aggregate_and_broadcast s).state = s ∧
    (aggregate_and_broadcast s).targets = [] ∧
    (aggregate_and_broadcast s).sent = none := by
  simp [aggregate_and_broadcast, h]

/-- C9, witness at a fresh three-node server. -/
theorem closure_absent_error_witness :
    (aggregate_and_broadcast (CentralServer.new 3 model0)).result =
      .error "No parameters to aggregate" ∧
    (aggregate_and_broadcast (CentralServer.new 3 model0)).state =
      CentralServer.new 3 model0 := by
  have h := closure_absent_error (CentralServer.new 3 model0) rfl
  exact ⟨h.1, h.2.1⟩

/-- C10: the aggregator's inbound `UpdateModel{params}` handling produces
exactly the state of a parameter update whose sender address is the
literal `"direct"`: it registers `"direct"` when absent and counts as one
averaging contribution toward round closure. -/
theorem updateModel_direct_equiv (s : CentralServer) (p : List ℚ) :
    handleNodeMessage s (.UpdateModel p) = handleServerMessage s ⟨"direct", p⟩ ∧
    "direct" ∈ (handleNodeMessage s (.UpdateModel p)).state.nodes ∧
    ((handleNodeMessage s (.UpdateModel p)).closed = false →
      (handleNodeMessage s (.UpdateModel p)).state.updates_received =
        s.updates_received + 1) := by
  have he : handleNodeMessage s (.UpdateModel p) =
      handleServerMessage s ⟨"direct", p⟩ := rfl
  obtain ⟨w, hw⟩ := accumulate_isSome s.aggregated_params p
  have hch := handle_char s ⟨"direct", p⟩ w hw
  refine ⟨he, ?_, ?_⟩
  · rw [he]
    exact handle_mem_nodes s ⟨"direct", p⟩
  · rw [he, hch]
    by_cases hn : s.total_nodes ≤ s.updates_received + 1
    · simp [hn]
    · simp [hn]

/-- C10, witness at a fresh two-node server. -/
theorem updateModel_direct_equiv_witness :
    handleNodeMessage wServer (.UpdateModel [1, 2]) =
      handleServerMessage wServer ⟨"direct", [1, 2]⟩ ∧
    "direct" ∈ (handleNodeMessage wServer (.UpdateModel [1, 2])).state.nodes ∧
    (handleNodeMessage wServer (.UpdateModel [1, 2])).state.updates_received = 1 := by
  have h := updateModel_direct_equiv wServer [1, 2]
  exact ⟨h.1, h.2.1, h.2.2 (by decide)⟩

end FedLearn
